import Mathlib

/-!
Shallow embedding of `vim-zellij-navigator` (src/src/main.rs), a Zellij
plugin that routes directional focus/resize commands either to native
multiplexer actions or to keystroke injection into a vim-family editor,
depending on an asynchronously probed pane occupant.

Host side effects (native actions, keystroke writes, probe issuance) are
reified as an `Effect` list; a Rust panic (`unwrap`/`expect`) is modelled
as `none` from the enclosing operation.
-/

/-- `Direction` enum from main.rs (provided by zellij_tile, used by the plugin). -/
inductive Direction where
  | left
  | right
  | up
  | down
  deriving DecidableEq, Repr

/-- `enum Command` from main.rs. -/
inductive Command where
  | moveFocus (d : Direction)
  | moveFocusOrTab (d : Direction)
  | resize (d : Direction)
  deriving DecidableEq, Repr

/-- `enum Mod (renamed KeyMod: Mod is taken by the core HMod hierarchy)` from main.rs. -/
inductive KeyMod where
  | ctrl
  | alt
  deriving DecidableEq, Repr

/-- `struct State` from main.rs; the command queue is the `VecDeque` as a list,
head = front. -/
structure State where
  permissions_granted : Bool
  current_term_command : Option String
  command_queue : List Command
  move_mod : KeyMod
  resize_mod : KeyMod
  deriving DecidableEq, Repr

/-- The `Default` impl for `State` in main.rs. -/
def State.initial : State :=
  { permissions_granted := false
    current_term_command := none
    command_queue := []
    move_mod := KeyMod.ctrl
    resize_mod := KeyMod.alt }

/-- Reified host calls made by the plugin. -/
inductive Effect where
  | writeChars (s : String)
  | moveFocus (d : Direction)
  | moveFocusOrTab (d : Direction)
  | resizeIncrease (d : Direction)
  | runCommand (args : List String)
  | hideSelf
  deriving DecidableEq, Repr

/-- Splitting a character list at every separator satisfying `p`, keeping empty
pieces: the behaviour of Rust's `str::split` with a char/predicate pattern.
`acc` holds the current piece reversed. -/
def splitPredAux (p : Char → Bool) : List Char → List Char → List String
  | [], acc => [String.mk acc.reverse]
  | x :: xs, acc =>
      if p x then String.mk acc.reverse :: splitPredAux p xs []
      else splitPredAux p xs (x :: acc)

/-- Rust `str::split` with a predicate pattern. -/
def splitPred (p : Char → Bool) (s : String) : List String :=
  splitPredAux p s.data []

/-- Rust `str::split(c)` for a single separator char. -/
def splitChar (c : Char) (s : String) : List String :=
  splitPred (fun x => x = c) s

/-- Rust `str::split_whitespace`: split on whitespace and drop empty pieces. -/
def splitWhitespace (s : String) : List String :=
  (splitPred Char.isWhitespace s).filter (fun t => t ≠ "")

/-- `term_command_from_client_list` from main.rs: parse `zellij action
list-clients` output into the command occupying the first client's pane. -/
def term_command_from_client_list (cl : String) : Option String :=
  let clients := (splitChar '\n' cl).drop 1
  match clients with
  | [] => none
  | first :: _ =>
    match splitWhitespace first with
    | c0 :: c1 :: c2 :: rest =>
        let _ := c0
        let _ := rest
        let is_terminal := c1.startsWith "terminal"
        let no_command := c2 == "N/A"
        if !is_terminal || no_command then none
        else ((splitChar '/' c2).getLast?).map (fun command => command)
    | _ => none

/-- `term_command_from_client_list` with the Rust slice indexings
(`clients[0]`, `columns[1]`, `columns[2]`) made explicit as fallible
lookups: `Except.error` marks an out-of-bounds panic. -/
def term_command_checked (cl : String) : Except String (Option String) :=
  let clients := (splitChar '\n' cl).drop 1
  if clients.isEmpty then Except.ok none
  else
    match clients.get? 0 with
    | none => Except.error "index out of bounds: clients[0]"
    | some first =>
      let columns := splitWhitespace first
      if columns.length < 3 then Except.ok none
      else
        match columns.get? 1, columns.get? 2 with
        | some c1, some c2 =>
            if !(c1.startsWith "terminal") || c2 == "N/A" then Except.ok none
            else
              match (splitChar '/' c2).getLast? with
              | none => Except.ok none
              | some command => Except.ok (some command)
        | _, _ => Except.error "index out of bounds: columns[1]/columns[2]"

/-- `ctrl_keybinding` from main.rs. -/
def ctrl_keybinding (direction : Direction) : String :=
  match direction with
  | Direction.left => "\x08"
  | Direction.right => "\x0C"
  | Direction.up => "\x0B"
  | Direction.down => "\x0A"

/-- `alt_keybinding` from main.rs. -/
def alt_keybinding (direction : Direction) : String :=
  match direction with
  | Direction.left => "\x1b!"
  | Direction.up => "\x1b@"
  | Direction.right => "\x1b#"
  | Direction.down => "\x1b$"

/-- `string_to_direction` from main.rs (Rust `match` on `&str` is an equality
chain). -/
def string_to_direction (s : String) : Option Direction :=
  if s = "left" then some Direction.left
  else if s = "right" then some Direction.right
  else if s = "up" then some Direction.up
  else if s = "down" then some Direction.down
  else none

/-- Rust `str::to_lowercase`, as a character-wise map (the configuration
values compared against are plain ASCII). -/
def toLowerStr (s : String) : String := String.mk (s.data.map Char.toLower)

/-- `string_to_mod` from main.rs. -/
def string_to_mod (s : String) : Option KeyMod :=
  if toLowerStr s = "ctrl" then some KeyMod.ctrl
  else if toLowerStr s = "alt" then some KeyMod.alt
  else none

/-- `PipeMessage` as used by `parse_command`: a name and an optional payload. -/
structure PipeMessage where
  name : String
  payload : Option String
  deriving DecidableEq, Repr

/-- `parse_command` from main.rs: the `?` on the payload and on
`string_to_direction` short-circuits to `none`. -/
def parse_command (pipe_message : PipeMessage) : Option Command :=
  match pipe_message.payload with
  | none => none
  | some payload =>
    match string_to_direction payload with
    | none => none
    | some direction =>
      if pipe_message.name = "move_focus" then some (Command.moveFocus direction)
      else if pipe_message.name = "move_focus_or_tab" then some (Command.moveFocusOrTab direction)
      else if pipe_message.name = "resize" then some (Command.resize direction)
      else none

/-- Is `b` a UTF-8 continuation byte (`0x80..=0xBF`)? -/
def isContByte (b : Nat) : Bool := 0x80 ≤ b && b ≤ 0xBF

/-- UTF-8 decoding of a byte list, the validity condition of Rust's
`String::from_utf8`: `none` exactly on invalid UTF-8 (overlong forms,
surrogates, out-of-range code points and truncated sequences rejected). -/
def utf8Decode : List Nat → Option (List Char)
  | [] => some []
  | b :: bs =>
    if b ≤ 0x7F then
      match utf8Decode bs with
      | some cs => some (Char.ofNat b :: cs)
      | none => none
    else if 0xC2 ≤ b && b ≤ 0xDF then
      match bs with
      | b1 :: bs1 =>
        if isContByte b1 then
          match utf8Decode bs1 with
          | some cs => some (Char.ofNat ((b - 0xC0) * 0x40 + (b1 - 0x80)) :: cs)
          | none => none
        else none
      | [] => none
    else if 0xE0 ≤ b && b ≤ 0xEF then
      match bs with
      | b1 :: b2 :: bs2 =>
        if (if b = 0xE0 then 0xA0 ≤ b1 && b1 ≤ 0xBF
            else if b = 0xED then 0x80 ≤ b1 && b1 ≤ 0x9F
            else isContByte b1) && isContByte b2 then
          match utf8Decode bs2 with
          | some cs =>
              some (Char.ofNat ((b - 0xE0) * 0x1000 + (b1 - 0x80) * 0x40 + (b2 - 0x80)) :: cs)
          | none => none
        else none
      | _ => none
    else if 0xF0 ≤ b && b ≤ 0xF4 then
      match bs with
      | b1 :: b2 :: b3 :: bs3 =>
        if (if b = 0xF0 then 0x90 ≤ b1 && b1 ≤ 0xBF
            else if b = 0xF4 then 0x80 ≤ b1 && b1 ≤ 0x8F
            else isContByte b1) && isContByte b2 && isContByte b3 then
          match utf8Decode bs3 with
          | some cs =>
              some (Char.ofNat
                ((b - 0xF0) * 0x40000 + (b1 - 0x80) * 0x1000 + (b2 - 0x80) * 0x40 + (b3 - 0x80)) :: cs)
          | none => none
        else none
      | _ => none
    else none

/-- The events `State::update` handles; `runCommandResult` carries the probe's
raw stdout bytes, `permissionRequestResult` the granted/denied status. -/
inductive Event where
  | runCommandResult (stdout : List Nat)
  | permissionRequestResult (granted : Bool)
  | other
  deriving DecidableEq, Repr

/-- `State::handle_command` from main.rs: enqueue and fire the probe. -/
def State.handle_command (s : State) (command : Command) : State × List Effect :=
  ({ s with command_queue := s.command_queue ++ [command] },
   [Effect.runCommand ["zellij", "action", "list-clients"]])

/-- `State::current_pane_is_vim` from main.rs. -/
def State.current_pane_is_vim (s : State) : Bool :=
  match s.current_term_command with
  | some current_command => current_command == "nvim" || current_command == "vim"
  | none => false

/-- `State::command_to_keybind` from main.rs. -/
def State.command_to_keybind (s : State) (command : Command) : String :=
  let mod_key :=
    match command with
    | Command.moveFocus _ | Command.moveFocusOrTab _ => s.move_mod
    | Command.resize _ => s.resize_mod
  let direction :=
    match command with
    | Command.moveFocus d | Command.moveFocusOrTab d | Command.resize d => d
  match mod_key with
  | KeyMod.ctrl => ctrl_keybinding direction
  | KeyMod.alt => alt_keybinding direction

/-- `State::execute_command` from main.rs: keystroke injection when the pane
runs vim/nvim, native action otherwise. -/
def State.execute_command (s : State) (command : Command) : List Effect :=
  if s.current_pane_is_vim then [Effect.writeChars (s.command_to_keybind command)]
  else
    match command with
    | Command.moveFocus direction => [Effect.moveFocus direction]
    | Command.moveFocusOrTab direction => [Effect.moveFocusOrTab direction]
    | Command.resize direction => [Effect.resizeIncrease direction]

/-- `State::parse_configuration` from main.rs; the `expect` on an
unrecognized modifier value is the `none` (fatal startup) outcome. The
configuration `BTreeMap` is modelled by its lookup function. -/
def State.parse_configuration (s : State) (configuration : String → Option String) :
    Option State :=
  match (match configuration "move_mod" with
         | none => some KeyMod.ctrl
         | some f => string_to_mod f) with
  | none => none
  | some mm =>
    match (match configuration "resize_mod" with
           | none => some KeyMod.alt
           | some f => string_to_mod f) with
    | none => none
    | some rm => some { s with move_mod := mm, resize_mod := rm }

/-- `State::update` from main.rs: `none` models the `unwrap` panic on a
non-UTF-8 probe payload; otherwise store the classification, and pop and
execute one queued command when the queue is non-empty. -/
def State.update (s : State) (event : Event) : Option (State × List Effect) :=
  match event with
  | Event.runCommandResult stdout =>
    match utf8Decode stdout with
    | none => none
    | some chars =>
      let s1 := { s with current_term_command :=
                    term_command_from_client_list (String.mk chars) }
      match s1.command_queue with
      | [] => some (s1, [])
      | command :: rest =>
          let s2 := { s1 with command_queue := rest }
          some (s2, s2.execute_command command)
  | Event.permissionRequestResult granted =>
      let s1 := { s with permissions_granted := granted }
      some (s1, if granted then [Effect.hideSelf] else [])
  | Event.other => some (s, [])

/-- `State::pipe` from main.rs: parse the message; on success enqueue and
probe, otherwise do nothing. -/
def State.pipe (s : State) (pipe_message : PipeMessage) : State × List Effect :=
  match parse_command pipe_message with
  | some command => s.handle_command command
  | none => (s, [])

/-- Fold `handle_command` over a list of triggers (the state part only). -/
def enqueueAll (s : State) (cs : List Command) : State :=
  cs.foldl (fun st c => (st.handle_command c).1) s

/-- Run a sequence of probe-completion events; collects, per completion, the
command it dispatched (the queue head at that moment; `none` for an empty
queue). `none` overall models a panic on a non-UTF-8 payload. -/
def runCompletions : State → List (List Nat) → Option (State × List (Option Command))
  | s, [] => some (s, [])
  | s, p :: ps =>
    match s.update (Event.runCommandResult p) with
    | none => none
    | some (s1, _) =>
      match runCompletions s1 ps with
      | none => none
      | some (sf, ds) => some (sf, s.command_queue.head? :: ds)

lemma splitPredAux_ne_nil (p : Char → Bool) (l acc : List Char) :
    splitPredAux p l acc ≠ [] := by
  induction l generalizing acc with
  | nil => simp [splitPredAux]
  | cons x xs ih =>
      unfold splitPredAux
      by_cases hx : p x
      · simp [hx]
      · simpa [hx] using ih (x :: acc)

lemma getLast?_isSome_of_ne_nil (l : List String) (h : l ≠ []) :
    (l.getLast?).isSome = true := by
  induction l with
  | nil => exact absurd rfl h
  | cons a t ih =>
      cases t with
      | nil => rfl
      | cons b t2 =>
          rw [List.getLast?_cons_cons]
          exact ih (by simp)

lemma splitChar_getLast?_isSome (c : Char) (s : String) :
    ((splitChar c s).getLast?).isSome = true :=
  getLast?_isSome_of_ne_nil _ (splitPredAux_ne_nil _ _ _)

/-- C5: under the Ctrl class the four directions map to four pairwise-distinct
one-character sequences; under the Alt class to four pairwise-distinct
two-character sequences, each beginning with the escape byte 0x1B. -/
theorem ctrl_alt_keybindings_distinct :
    ([ctrl_keybinding Direction.left, ctrl_keybinding Direction.right,
      ctrl_keybinding Direction.up, ctrl_keybinding Direction.down].Pairwise (fun a b => a ≠ b))
    ∧ (∀ d, (ctrl_keybinding d).length = 1)
    ∧ ([alt_keybinding Direction.left, alt_keybinding Direction.right,
        alt_keybinding Direction.up, alt_keybinding Direction.down].Pairwise (fun a b => a ≠ b))
    ∧ (∀ d, (alt_keybinding d).length = 2
        ∧ (alt_keybinding d).data.head? = some (Char.ofNat 0x1B)) := by
  refine ⟨by decide, fun d => by cases d <;> decide, by decide,
          fun d => by cases d <;> exact ⟨by decide, by decide⟩⟩

/-- C10: the translated keystroke sequence for `MoveFocus d` and
`MoveFocusOrTab d` is identical in every state (both use the move modifier),
so the translator's output cannot distinguish the two command kinds. -/
theorem keybind_moveFocus_eq_moveFocusOrTab (s : State) (d : Direction) :
    s.command_to_keybind (Command.moveFocus d)
      = s.command_to_keybind (Command.moveFocusOrTab d) := rfl

/-- C2: a dispatched command is executed by keystroke injection exactly when
the occupant is "vim" or "nvim" (then the translator's sequence is written),
and otherwise by the native action matching the command's kind. -/
theorem execute_command_routing (s : State) (c : Command) :
    (s.current_pane_is_vim = true ↔
      (s.current_term_command = some "vim" ∨ s.current_term_command = some "nvim"))
    ∧ (s.current_pane_is_vim = true →
        s.execute_command c = [Effect.writeChars (s.command_to_keybind c)])
    ∧ (s.current_pane_is_vim = false →
        s.execute_command c =
          [match c with
           | Command.moveFocus d => Effect.moveFocus d
           | Command.moveFocusOrTab d => Effect.moveFocusOrTab d
           | Command.resize d => Effect.resizeIncrease d]) := by
  refine ⟨?_, ?_, ?_⟩
  · unfold State.current_pane_is_vim
    cases s.current_term_command with
    | none => simp
    | some cc => simp [Bool.or_eq_true, beq_iff_eq]; tauto
  · intro h
    unfold State.execute_command
    simp [h]
  · intro h
    unfold State.execute_command
    rw [h]
    cases c <;> simp

/-- C6: a probe completion whose payload is not valid UTF-8 makes the handler
abort (the unwrap panic), while every valid-UTF-8 payload is handled without
aborting. -/
theorem update_fatal_iff_invalid_utf8 (s : State) (p : List Nat) :
    (utf8Decode p = none → s.update (Event.runCommandResult p) = none)
    ∧ (∀ chars, utf8Decode p = some chars →
        (s.update (Event.runCommandResult p)).isSome = true) := by
  constructor
  · intro h
    simp only [State.update, h]
  · intro chars h
    simp only [State.update, h]
    cases hq : s.command_queue <;> simp [hq]

/-- C6 witness: the handler aborts on the single byte 0xFF and succeeds on the
single byte 0x68 (the letter h). -/
theorem update_fatal_iff_invalid_utf8_witness :
    State.initial.update (Event.runCommandResult [0xFF]) = none
    ∧ (State.initial.update (Event.runCommandResult [0x68])).isSome = true :=
  ⟨(update_fatal_iff_invalid_utf8 State.initial [0xFF]).1 (by decide),
   (update_fatal_iff_invalid_utf8 State.initial [0x68]).2 ['h'] (by decide)⟩

/-- C7: a probe completion arriving with an empty queue dispatches nothing
(no effects at all) and only overwrites the occupant classification; the
queue stays empty and all other fields are unchanged. -/
theorem update_empty_queue_frame (s : State) (p : List Nat) (chars : List Char)
    (hq : s.command_queue = [])
    (hd : utf8Decode p = some chars) :
    s.update (Event.runCommandResult p) =
      some ({ s with current_term_command :=
                term_command_from_client_list (String.mk chars) }, []) := by
  simp only [State.update, hd]
  simp [hq]

/-- C7 witness at the initial state and the one-byte payload "h". -/
theorem update_empty_queue_frame_witness :
    State.initial.update (Event.runCommandResult [0x68]) =
      some ({ State.initial with current_term_command :=
                term_command_from_client_list (String.mk ['h']) }, []) :=
  update_empty_queue_frame State.initial [0x68] ['h'] rfl (by decide)

/-- C2 witness: with occupant "vim" a move dispatch writes the translated
keystrokes; with no occupant a resize dispatch performs the native resize. -/
theorem execute_command_routing_witness :
    ({ State.initial with current_term_command := some "vim" }).execute_command
        (Command.moveFocus Direction.left)
      = [Effect.writeChars (({ State.initial with current_term_command := some "vim"
          }).command_to_keybind (Command.moveFocus Direction.left))]
    ∧ State.initial.execute_command (Command.resize Direction.up)
        = [Effect.resizeIncrease Direction.up] :=
  ⟨(execute_command_routing { State.initial with current_term_command := some "vim" }
      (Command.moveFocus Direction.left)).2.1 (by decide),
   (execute_command_routing State.initial (Command.resize Direction.up)).2.2 (by decide)⟩

lemma enqueueAll_queue (s : State) (cs : List Command) :
    (enqueueAll s cs).command_queue = s.command_queue ++ cs := by
  induction cs generalizing s with
  | nil => simp [enqueueAll]
  | cons c cs ih =>
      show (enqueueAll (s.handle_command c).1 cs).command_queue = _
      rw [ih]
      simp [State.handle_command]

lemma update_valid_eq (s : State) (p : List Nat) (chars : List Char)
    (hd : utf8Decode p = some chars) :
    s.update (Event.runCommandResult p) =
      (let s1 := { s with current_term_command :=
                     term_command_from_client_list (String.mk chars) }
       match s1.command_queue with
       | [] => some (s1, [])
       | command :: rest =>
           let s2 := { s1 with command_queue := rest }
           some (s2, s2.execute_command command)) := by
  simp only [State.update, hd]

lemma runCompletions_drain (s : State) (ps : List (List Nat))
    (hlen : ps.length = s.command_queue.length)
    (hvalid : ∀ p ∈ ps, (utf8Decode p).isSome = true) :
    (runCompletions s ps).map (fun r => (r.1.command_queue, r.2))
      = some ([], s.command_queue.map some) := by
  induction ps generalizing s with
  | nil =>
      cases hq : s.command_queue with
      | nil => simp [runCompletions, hq]
      | cons c rest => rw [hq] at hlen; simp at hlen
  | cons p ps ih =>
      obtain ⟨chars, hd⟩ := Option.isSome_iff_exists.mp (hvalid p (by simp))
      cases hq : s.command_queue with
      | nil => rw [hq] at hlen; simp at hlen
      | cons c rest =>
          have hupd := update_valid_eq s p chars hd
          simp only [hq] at hupd
          unfold runCompletions
          rw [hupd]
          have hstep := ih { s with
              current_term_command := term_command_from_client_list (String.mk chars),
              command_queue := rest }
            (by simpa [hq] using hlen)
            (fun q hq2 => hvalid q (by simp [hq2]))
          cases hrc : runCompletions { s with
              current_term_command := term_command_from_client_list (String.mk chars),
              command_queue := rest } ps with
          | none => rw [hrc] at hstep; simp at hstep
          | some r =>
              rw [hrc] at hstep
              simp only [Option.map_some] at hstep
              simp [hq, hrc, Prod.ext_iff] at hstep ⊢
              exact hstep

/-- C1: starting from an empty queue, after N recognized triggers are enqueued,
a run of N probe completions dispatches exactly the enqueued commands in FIFO
order, one per completion, ending with an empty queue; moreover any single
probe completion that is handled removes at most the queue's head (the new
queue is the old queue's tail). -/
theorem fifo_queue_drain (s0 : State) (cs : List Command) (ps : List (List Nat))
    (hq : s0.command_queue = [])
    (hlen : ps.length = cs.length)
    (hvalid : ∀ p ∈ ps, (utf8Decode p).isSome = true) :
    (runCompletions (enqueueAll s0 cs) ps).map (fun r => (r.1.command_queue, r.2))
      = some ([], cs.map some)
    ∧ (∀ (t : State) (q : List Nat) (t' : State) (effs : List Effect),
        (utf8Decode q).isSome = true →
        t.update (Event.runCommandResult q) = some (t', effs) →
        t'.command_queue = t.command_queue.tail) := by
  constructor
  · have hqueue : (enqueueAll s0 cs).command_queue = cs := by
      rw [enqueueAll_queue, hq, List.nil_append]
    have hdrain := runCompletions_drain (enqueueAll s0 cs) ps
      (by rw [hqueue]; exact hlen) hvalid
    rw [hqueue] at hdrain
    exact hdrain
  · intro t q t' effs hv hupd
    obtain ⟨chars, hd⟩ := Option.isSome_iff_exists.mp hv
    rw [update_valid_eq t q chars hd] at hupd
    cases hqt : t.command_queue with
    | nil =>
        simp only [hqt] at hupd
        simp only [Option.some.injEq, Prod.mk.injEq] at hupd
        rw [← hupd.1]
        simp [hqt]
    | cons c rest =>
        simp only [hqt] at hupd
        simp only [Option.some.injEq, Prod.mk.injEq] at hupd
        rw [← hupd.1]
        simp [hqt]

/-- C1 witness: two commands enqueued then two valid probe completions drain
them in order and leave the queue empty. -/
theorem fifo_queue_drain_witness :
    (runCompletions
        (enqueueAll State.initial [Command.moveFocus Direction.left, Command.resize Direction.up])
        [[0x68], [0x68]]).map (fun r => (r.1.command_queue, r.2))
      = some ([], [Command.moveFocus Direction.left, Command.resize Direction.up].map some) :=
  (fifo_queue_drain State.initial
    [Command.moveFocus Direction.left, Command.resize Direction.up]
    [[0x68], [0x68]] rfl rfl (by decide)).1

/-- C3: the classifier returns nothing exactly when there is no data line after
the header, the first data line has fewer than 3 whitespace columns, column 1
does not start with "terminal", or column 2 is "N/A"; otherwise it returns the
final slash-separated segment of column 2 (which always exists). -/
theorem classifier_characterization (cl : String) :
    (term_command_from_client_list cl =
      (let clients := (splitChar '\n' cl).drop 1
       let columns := splitWhitespace (clients.headD "")
       if clients.isEmpty then none
       else if columns.length < 3 then none
       else if !(columns.getD 1 "").startsWith "terminal" then none
       else if columns.getD 2 "" == "N/A" then none
       else (splitChar '/' (columns.getD 2 "")).getLast?))
    ∧ (∀ t : String, ((splitChar '/' t).getLast?).isSome = true) := by
  refine ⟨?_, splitChar_getLast?_isSome '/'⟩
  unfold term_command_from_client_list
  cases hcl : (splitChar '\n' cl).drop 1 with
  | nil => simp
  | cons first rest =>
      cases hc : splitWhitespace first with
      | nil => simp [hc]
      | cons a t =>
          cases t with
          | nil => simp [hc]
          | cons b t2 =>
              cases t2 with
              | nil => simp [hc]
              | cons c t3 =>
                  simp only [hc, List.headD_cons, List.isEmpty_cons, List.length_cons,
                    List.getD, List.get?_cons_succ, List.get?_cons_zero, Option.getD_some,
                    Bool.false_eq_true, if_false]
                  rw [if_neg (show ¬(t3.length + 1 + 1 + 1 < 3) by omega)]
                  by_cases hterm : b.startsWith "terminal"
                  · by_cases hna : c = "N/A"
                    · simp [hterm, hna]
                    · simp [hterm, hna]
                  · simp [hterm]

/-- C8: the classifier is total and never panics: the variant with the Rust
slice indexings made explicit always returns `ok`, agreeing with
`term_command_from_client_list` on every input string. -/
theorem classifier_total_no_panic (cl : String) :
    term_command_checked cl = Except.ok (term_command_from_client_list cl) := by
  unfold term_command_checked term_command_from_client_list
  cases hcl : (splitChar '\n' cl).drop 1 with
  | nil => simp
  | cons first rest =>
      simp only [List.isEmpty_cons, Bool.false_eq_true, if_false, List.get?_cons_zero]
      cases hc : splitWhitespace first with
      | nil => simp
      | cons a t =>
          cases t with
          | nil => simp
          | cons b t2 =>
              cases t2 with
              | nil => simp
              | cons c t3 =>
                  simp only [List.length_cons, List.get?_cons_succ, List.get?_cons_zero]
                  rw [if_neg (by omega)]
                  by_cases hterm : b.startsWith "terminal"
                  · by_cases hna : c = "N/A"
                    · simp [hterm, hna]
                    · simp only [hterm, hna]
                      cases (splitChar '/' c).getLast? <;> simp [hterm, hna]
                  · simp [hterm]

lemma string_to_direction_mem (p : String) (d : Direction)
    (h : string_to_direction p = some d) :
    p = "left" ∨ p = "right" ∨ p = "up" ∨ p = "down" := by
  unfold string_to_direction at h
  split_ifs at h with h1 h2 h3 h4
  · exact Or.inl h1
  · exact Or.inr (Or.inl h2)
  · exact Or.inr (Or.inr (Or.inl h3))
  · exact Or.inr (Or.inr (Or.inr h4))

lemma parse_command_none_of_bad_name (name : String) (payload : Option String)
    (h1 : name ≠ "move_focus") (h2 : name ≠ "move_focus_or_tab") (h3 : name ≠ "resize") :
    parse_command ⟨name, payload⟩ = none := by
  simp only [parse_command]
  cases payload with
  | none => rfl
  | some p =>
      cases hd : string_to_direction p with
      | none => simp [hd]
      | some d => simp [hd, h1, h2, h3]

/-- C4: a pipe message enqueues a command and issues exactly one probe iff its
name is one of move_focus / move_focus_or_tab / resize and its payload is
exactly one of left / right / up / down; any other message leaves the state
unchanged and produces no effect. -/
theorem trigger_recognition (s : State) (m : PipeMessage) :
    ((m.name = "move_focus" ∨ m.name = "move_focus_or_tab" ∨ m.name = "resize")
      ∧ (m.payload = some "left" ∨ m.payload = some "right"
          ∨ m.payload = some "up" ∨ m.payload = some "down") →
      ∃ c, parse_command m = some c
        ∧ s.pipe m = ({ s with command_queue := s.command_queue ++ [c] },
                      [Effect.runCommand ["zellij", "action", "list-clients"]]))
    ∧ (¬ ((m.name = "move_focus" ∨ m.name = "move_focus_or_tab" ∨ m.name = "resize")
          ∧ (m.payload = some "left" ∨ m.payload = some "right"
              ∨ m.payload = some "up" ∨ m.payload = some "down")) →
        parse_command m = none ∧ s.pipe m = (s, [])) := by
  obtain ⟨name, payload⟩ := m
  constructor
  · rintro ⟨hn | hn | hn, hp | hp | hp | hp⟩ <;> subst hn <;> subst hp <;>
      exact ⟨_, rfl, rfl⟩
  · intro h
    have hpc : parse_command ⟨name, payload⟩ = none := by
      by_cases hB : payload = some "left" ∨ payload = some "right"
          ∨ payload = some "up" ∨ payload = some "down"
      · have hA : ¬(name = "move_focus" ∨ name = "move_focus_or_tab" ∨ name = "resize") :=
          fun a => h ⟨a, hB⟩
        push_neg at hA
        exact parse_command_none_of_bad_name name payload hA.1 hA.2.1 hA.2.2
      · simp only [parse_command]
        cases payload with
        | none => rfl
        | some p =>
            cases hd : string_to_direction p with
            | none => simp [hd]
            | some d =>
                exfalso
                rcases string_to_direction_mem p d hd with h1 | h1 | h1 | h1 <;>
                  subst h1 <;> exact hB (by tauto)
    exact ⟨hpc, by simp [State.pipe, hpc]⟩

/-- C4 witness: a recognized trigger enqueues and probes; the unrecognized
trigger of end-to-end scenario D does nothing. -/
theorem trigger_recognition_witness :
    (∃ c, parse_command ⟨"move_focus", some "left"⟩ = some c
      ∧ State.initial.pipe ⟨"move_focus", some "left"⟩
          = ({ State.initial with command_queue := State.initial.command_queue ++ [c] },
             [Effect.runCommand ["zellij", "action", "list-clients"]]))
    ∧ (parse_command ⟨"jump", some "left"⟩ = none
      ∧ State.initial.pipe ⟨"jump", some "left"⟩ = (State.initial, [])) :=
  ⟨(trigger_recognition State.initial ⟨"move_focus", some "left"⟩).1
      (by exact ⟨Or.inl rfl, Or.inl rfl⟩),
   (trigger_recognition State.initial ⟨"jump", some "left"⟩).2 (by decide)⟩

/-- C9: `move_mod`/`resize_mod` accept "ctrl" and "alt" case-insensitively;
an unset key defaults to Ctrl (move) / Alt (resize); any other supplied
value is fatal at startup (`none`). -/
theorem configuration_parsing (s : State) (cfg : String → Option String) :
    (∀ v : String, toLowerStr v = "ctrl" → string_to_mod v = some KeyMod.ctrl)
    ∧ (∀ v : String, toLowerStr v = "alt" → string_to_mod v = some KeyMod.alt)
    ∧ (∀ v : String, toLowerStr v ≠ "ctrl" → toLowerStr v ≠ "alt" → string_to_mod v = none)
    ∧ (cfg "move_mod" = none → cfg "resize_mod" = none →
        s.parse_configuration cfg
          = some { s with move_mod := KeyMod.ctrl, resize_mod := KeyMod.alt })
    ∧ (∀ v m1, cfg "move_mod" = some v → string_to_mod v = some m1 → cfg "resize_mod" = none →
        s.parse_configuration cfg = some { s with move_mod := m1, resize_mod := KeyMod.alt })
    ∧ (∀ w m2, cfg "move_mod" = none → cfg "resize_mod" = some w → string_to_mod w = some m2 →
        s.parse_configuration cfg = some { s with move_mod := KeyMod.ctrl, resize_mod := m2 })
    ∧ (∀ v w m1 m2, cfg "move_mod" = some v → string_to_mod v = some m1 →
        cfg "resize_mod" = some w → string_to_mod w = some m2 →
        s.parse_configuration cfg = some { s with move_mod := m1, resize_mod := m2 })
    ∧ (∀ v, cfg "move_mod" = some v → string_to_mod v = none →
        s.parse_configuration cfg = none)
    ∧ (∀ w, cfg "resize_mod" = some w → string_to_mod w = none →
        s.parse_configuration cfg = none) := by
  refine ⟨?_, ?_, ?_, ?_, ?_, ?_, ?_, ?_, ?_⟩
  · intro v hv
    unfold string_to_mod
    rw [hv]
    simp
  · intro v hv
    unfold string_to_mod
    rw [hv]
    simp
  · intro v hv1 hv2
    unfold string_to_mod
    rw [if_neg hv1, if_neg hv2]
  · intro hm hr
    simp only [State.parse_configuration, hm, hr]
  · intro v m1 hm hv hr
    simp only [State.parse_configuration, hm, hv, hr]
  · intro w m2 hm hr hw
    simp only [State.parse_configuration, hm, hr, hw]
  · intro v w m1 m2 hm hv hr hw
    simp only [State.parse_configuration, hm, hv, hr, hw]
  · intro v hm hv
    simp only [State.parse_configuration, hm, hv]
  · intro w hr hw
    cases hm : cfg "move_mod" with
    | none => simp only [State.parse_configuration, hm, hr, hw]
    | some v =>
        cases hv : string_to_mod v with
        | none => simp only [State.parse_configuration, hm, hv]
        | some m1 => simp only [State.parse_configuration, hm, hv, hr, hw]

/-- C9 witness: an unset move_mod defaults to Ctrl while "ALT" is accepted
case-insensitively for resize_mod, and an unrecognized value "meta" is
fatal. -/
theorem configuration_parsing_witness :
    State.initial.parse_configuration
        (fun k => if k = "resize_mod" then some "ALT" else none)
      = some { State.initial with move_mod := KeyMod.ctrl, resize_mod := KeyMod.alt }
    ∧ State.initial.parse_configuration
        (fun k => if k = "move_mod" then some "meta" else none)
      = none :=
  ⟨(configuration_parsing State.initial
      (fun k => if k = "resize_mod" then some "ALT" else none)).2.2.2.2.2.1
      "ALT" KeyMod.alt (by decide) (by decide) (by decide),
   (configuration_parsing State.initial
      (fun k => if k = "move_mod" then some "meta" else none)).2.2.2.2.2.2.2.1
      "meta" (by decide) (by decide)⟩
